import Mathlib

/-!
Verification of the `x2node-pointers` record element pointer engine
(`src/lib/record-element-pointer.js`), a JSON Pointer (RFC 6901)
implementation resolving pointer strings against a record-type schema and
reading/mutating record instances.

The JavaScript source is shallowly embedded: records become a `Value` tree,
the schema collaborator becomes `Container`/`PropDesc`, pointer chains become
`Ptr` (a list of `PNode`s, root implicit), and the in-place mutation of the
JS code is rendered as explicit state passing (each traversal step returns
the possibly-updated parent object together with the slot that aliases the
value handed to deeper steps, so that deeper mutations are written back
exactly where JS aliasing would make them visible).
-/

namespace X2P

/-- JavaScript-style structured value: `undefined` models `undefined`, `null`
models `null`, objects are association lists in insertion order. -/
inductive Value : Type where
  | undefined : Value
  | null : Value
  | bool (b : Bool) : Value
  | num (n : Int) : Value
  | str (s : String) : Value
  | arr (elems : List Value) : Value
  | obj (fields : List (String × Value)) : Value

/-- Collection kind of a schema property: plain (scalar / nested object),
array, or map. Models the `isArray()` / `isMap()` flags of a property
descriptor. -/
inductive CollKind : Type where
  | plain : CollKind
  | array : CollKind
  | map : CollKind
deriving DecidableEq

/-- Schema properties container (`module:x2node-records~PropertiesContainer`):
nested path, optional polymorphic type-property name (present iff
`isPolymorphObject()`), and the declared properties. Each property carries
its collection kind, scalar value type and, if a nested object, its own
container. -/
inductive Container : Type where
  | mk (nestedPath : String) (typeProp : Option String)
      (props : List (String × CollKind × String × Option Container)) : Container

/-- Property descriptor view (`module:x2node-records~PropertyDescriptor`):
the fields of a declared property the pointer engine reads. -/
structure PropDesc : Type where
  name : String
  coll : CollKind
  svt : String
  nested : Option Container

def Container.nestedPath : Container → String
  | .mk p _ _ => p

def Container.typeProp : Container → Option String
  | .mk _ t _ => t

def Container.props : Container → List (String × CollKind × String × Option Container)
  | .mk _ _ ps => ps

def lookupProp (ps : List (String × CollKind × String × Option Container))
    (k : String) : Option (CollKind × String × Option Container) :=
  match ps with
  | [] => none
  | (k', v) :: rest => if k' = k then some v else lookupProp rest k

/-- `container.getPropertyDesc(name)`. -/
def Container.getDesc (c : Container) (k : String) : Option PropDesc :=
  (lookupProp c.props k).map (fun t => ⟨k, t.1, t.2.1, t.2.2⟩)

/-- `container.hasProperty(name)`. -/
def Container.hasProp (c : Container) (k : String) : Bool :=
  (lookupProp c.props k).isSome

/-- Array / map element index of a collection element pointer:
a dash, a numeric array index, or a map key. -/
inductive ElemIdx : Type where
  | dash : ElemIdx
  | num (n : Nat) : ElemIdx
  | key (k : String) : ElemIdx
deriving DecidableEq

/-- One non-root node of a pointer chain, mirroring the fields of
`RecordElementPointer` used by the engine: the unescaped token, the bound
property descriptor, the property path, the collection-element flag and
index, the children container, and the cached RFC 6901 pointer string. -/
structure PNode : Type where
  token : String
  desc : PropDesc
  path : String
  collEl : Bool
  idx : Option ElemIdx
  children : Option Container
  ptrStr : String

/-- A pointer: the schema root container together with the chain of non-root
nodes from root to leaf (empty for the root pointer). -/
structure Ptr : Type where
  rootC : Container
  nodes : List PNode

/-- `toString()` / `_pointerString` of the last node (empty for root). -/
def ptrString (p : Ptr) : String :=
  match p.nodes.getLast? with
  | none => ""
  | some n => n.ptrStr

/-- `isRoot()`. -/
def isRootPtr (p : Ptr) : Bool := p.nodes.isEmpty

/-- RFC 6901 escaping used when the constructor builds `_pointerString`:
`~` becomes `~0` and `/` becomes `~1`
(`pointerToken.replace(/[~\x7b/]/g, ...)`, line 50-51). -/
def escapeChars : List Char → List Char
  | [] => []
  | c :: rest =>
    if c = '~' then '~' :: '0' :: escapeChars rest
    else if c = '/' then '~' :: '1' :: escapeChars rest
    else c :: escapeChars rest

def escapeStr (s : String) : String := ⟨escapeChars s.data⟩

/-- RFC 6901 unescaping used by `parse` on each raw token:
`~0` becomes `~` and `~1` becomes `/`
(`replace(/~[01]/g, ...)`, line 88-89); a `~` not followed by `0`/`1` is
left as-is, exactly as the JS regex scan does. -/
def unescapeChars : List Char → List Char
  | [] => []
  | [c] => [c]
  | c :: d :: rest =>
    if c = '~' then
      if d = '0' then '~' :: unescapeChars rest
      else if d = '1' then '/' :: unescapeChars rest
      else c :: unescapeChars (d :: rest)
    else c :: unescapeChars (d :: rest)

/-- `String.prototype.split('/')` on the character list. -/
def splitSlash : List Char → List (List Char)
  | [] => [[]]
  | c :: rest =>
    let r := splitSlash rest
    if c = '/' then [] :: r else (c :: r.headD []) :: r.tail

/-- The array-index token test `/^(?:0|[1-9][0-9]*)$/` (line 128). -/
def isArrayIdxTok (s : String) : Bool :=
  match s.data with
  | [] => false
  | c :: rest =>
    if c = '0' then rest.isEmpty
    else ('1' ≤ c && c ≤ '9') && rest.all (fun d => '0' ≤ d && d ≤ '9')

/-- `Number(pointerToken)` for a decimal digit token. -/
def digitsToNat (s : String) : Nat :=
  s.data.foldl (fun a c => a * 10 + (c.toNat - 48)) 0

/-- Index of the first `:` in a token (`pointerToken.indexOf(':')`). -/
def colonIdx : List Char → Option Nat
  | [] => none
  | c :: rest =>
    if c = ':' then some 0
    else (colonIdx rest).map (· + 1)

/-! ## Record value operations

These model the generic JS object/array accesses the engine performs on the
caller-supplied record. Accesses with a shape mismatch (e.g. indexing a
scalar) yield `undefined` / leave the value unchanged, like the corresponding JS
reads; such states are unreachable for schema-conformant records. -/

/-- `v === undefined`. -/
def isUndefined : Value → Bool
  | .undefined => true
  | _ => false

/-- `v === null`. -/
def isNull : Value → Bool
  | .null => true
  | _ => false

/-- `(v === undefined) || (v === null)`, the "no value" test of
`_getImmediateValue`. -/
def isNoVal (v : Value) : Bool := isUndefined v || isNull v

/-- JS truthiness of a value (the `obj &&` guard in `removeValue`). -/
def truthy : Value → Bool
  | .undefined => false
  | .null => false
  | .bool b => b
  | .num n => n ≠ 0
  | .str s => s ≠ ""
  | .arr _ => true
  | .obj _ => true

def lookupFld : List (String × Value) → String → Value
  | [], _ => .undefined
  | (k', v) :: rest, k => if k' = k then v else lookupFld rest k

def setFld : List (String × Value) → String → Value → List (String × Value)
  | [], k, v => [(k, v)]
  | (k', v') :: rest, k, v =>
    if k' = k then (k, v) :: rest else (k', v') :: setFld rest k v

def delFld : List (String × Value) → String → List (String × Value)
  | [], _ => []
  | (k', v') :: rest, k =>
    if k' = k then rest else (k', v') :: delFld rest k

/-- `obj[key]` read: missing fields and non-objects give `undefined`. -/
def objGet (v : Value) (k : String) : Value :=
  match v with
  | .obj fs => lookupFld fs k
  | _ => .undefined

/-- `obj[key] = x` on an object (no-op on non-objects). -/
def objSet (v : Value) (k : String) (x : Value) : Value :=
  match v with
  | .obj fs => .obj (setFld fs k x)
  | _ => v

/-- `delete obj[key]` on an object (no-op on non-objects). -/
def objDel (v : Value) (k : String) : Value :=
  match v with
  | .obj fs => .obj (delFld fs k)
  | _ => v

def nthVal : List Value → Nat → Value
  | [], _ => .undefined
  | e :: _, 0 => e
  | _ :: es, n + 1 => nthVal es n

/-- `arr[i]` read: out-of-range and non-arrays give `undefined`. -/
def arrGet (v : Value) (i : Nat) : Value :=
  match v with
  | .arr es => nthVal es i
  | _ => .undefined

/-- `arr[i] = x` in-range on an array. -/
def arrSet (v : Value) (i : Nat) (x : Value) : Value :=
  match v with
  | .arr es => .arr (es.set i x)
  | _ => v

/-- `arr.splice(i, 0, x)` for `i < arr.length`. -/
def insertAt : List Value → Nat → Value → List Value
  | es, 0, x => x :: es
  | [], _ + 1, x => [x]
  | e :: es, n + 1, x => e :: insertAt es n x

def arrInsert (v : Value) (i : Nat) (x : Value) : Value :=
  match v with
  | .arr es => .arr (insertAt es i x)
  | _ => v

/-- `arr.splice(i, 1)` for `i < arr.length`. -/
def arrRemove (v : Value) (i : Nat) : Value :=
  match v with
  | .arr es => .arr (es.eraseIdx i)
  | _ => v

/-- `arr.push(x)`. -/
def arrPush (v : Value) (x : Value) : Value :=
  match v with
  | .arr es => .arr (es ++ [x])
  | _ => v

/-- The test `idx < obj.length` (false when `obj` is not an array, as the JS
comparison with `undefined` is). -/
def arrIdxLt (i : Nat) (v : Value) : Bool :=
  match v with
  | .arr es => i < es.length
  | _ => false

/-! ## Errors -/

/-- The three error classes of the engine plus a marker for a raw JS
`TypeError` crash (dereferencing a `null` children container, which the
engine never guards; unreachable for well-formed schemas). -/
inductive Err : Type where
  | synErr (msg : String) : Err
  | usageErr (msg : String) : Err
  | dataErr (msg : String) : Err
  | typeErr : Err

/-- The class of an error, disregarding its message. -/
inductive ErrKind : Type where
  | syn | usage | data | type
deriving DecidableEq

def Err.kind : Err → ErrKind
  | .synErr _ => .syn
  | .usageErr _ => .usage
  | .dataErr _ => .data
  | .typeErr => .type

/-! ## Parser (`_createChildPointer`, `parse`, `createChildPointer`) -/

/-- The children container of the current (last) node: the schema root for
the root pointer, the node's own `_childrenContainer` otherwise. -/
def childCont (p : Ptr) : Option Container :=
  match p.nodes.getLast? with
  | none => some p.rootC
  | some n => n.children

/-- Append a child node, building its cached pointer string the way the
`RecordElementPointer` constructor does (lines 48-53). -/
def pushNode (p : Ptr) (tok : String) (desc : PropDesc) (path : String)
    (collEl : Bool) (idx : Option ElemIdx) (children : Option Container) : Ptr :=
  ⟨p.rootC, p.nodes ++
    [⟨tok, desc, path, collEl, idx, children, ptrString p ++ "/" ++ escapeStr tok⟩]⟩

/-- The object-property part of `_createChildPointer` (lines 154-201): the
polymorphic type-property and `subtype:property` forms, then the regular
property lookup. `c` is the current children container. -/
def objectPropStep (p : Ptr) (tok fullPtr : String) (c : Container) :
    Except Err Ptr :=
  match c.typeProp with
  | some tp =>
    if tok = tp then
      match c.getDesc tok with
      | none => .error .typeErr
      | some d => .ok (pushNode p tok d (c.nestedPath ++ tok) false none none)
    else
      match colonIdx tok.data with
      | some j =>
        if 0 < j ∧ j < tok.data.length - 1 then
          if c.hasProp ⟨tok.data.take j⟩ then
            match c.getDesc ⟨tok.data.take j⟩ with
            | none => .error .typeErr
            | some stDesc =>
              match stDesc.nested with
              | none => .error .typeErr
              | some stC =>
                if stC.hasProp ⟨tok.data.drop (j + 1)⟩ then
                  match stC.getDesc ⟨tok.data.drop (j + 1)⟩ with
                  | none => .error .typeErr
                  | some d =>
                    .ok (pushNode p tok d
                      (c.nestedPath ++ (⟨tok.data.take j⟩ : String) ++ "." ++
                        (⟨tok.data.drop (j + 1)⟩ : String))
                      false none d.nested)
                else
                  .error (.synErr ("Invalid record element pointer \"" ++
                    fullPtr ++ "\": no such property."))
          else
            match c.getDesc tok with
            | none => .error (.synErr ("Invalid record element pointer \"" ++
                fullPtr ++ "\": no such property."))
            | some d =>
              .ok (pushNode p tok d (c.nestedPath ++ tok) false none d.nested)
        else
          match c.getDesc tok with
          | none => .error (.synErr ("Invalid record element pointer \"" ++
              fullPtr ++ "\": no such property."))
          | some d =>
            .ok (pushNode p tok d (c.nestedPath ++ tok) false none d.nested)
      | none =>
        match c.getDesc tok with
        | none => .error (.synErr ("Invalid record element pointer \"" ++
            fullPtr ++ "\": no such property."))
        | some d =>
          .ok (pushNode p tok d (c.nestedPath ++ tok) false none d.nested)
  | none =>
    match c.getDesc tok with
    | none => .error (.synErr ("Invalid record element pointer \"" ++
        fullPtr ++ "\": no such property."))
    | some d =>
      .ok (pushNode p tok d (c.nestedPath ++ tok) false none d.nested)

/-- `_createChildPointer(pointerToken, fullPointer, noDash)` (lines 109-202):
resolves one (already unescaped) token against the current node. -/
def createChild (p : Ptr) (tok fullPtr : String) (noDash : Bool) :
    Except Err Ptr :=
  match p.nodes.getLast? with
  | none =>
    -- root: straight to the object-property resolution against the root
    -- container (the `!root &&` guards skip every other branch)
    objectPropStep p tok fullPtr p.rootC
  | some cur =>
    -- beyond-dash check (lines 115-119)
    if cur.collEl ∧ cur.desc.coll = .array ∧ cur.idx = some .dash then
      .error (.synErr ("Invalid record element pointer \"" ++ fullPtr ++
        "\": unexpected dash for an array index."))
    -- array element (lines 122-136)
    else if ¬cur.collEl ∧ cur.desc.coll = .array then
      if tok = "-" then
        if noDash then
          .error (.synErr ("Invalid record element pointer \"" ++ fullPtr ++
            "\": dash not allowed for an array index in this pointer."))
        else
          .ok (pushNode p tok cur.desc cur.path true (some .dash) cur.children)
      else if isArrayIdxTok tok then
        .ok (pushNode p tok cur.desc cur.path true (some (.num (digitsToNat tok)))
          cur.children)
      else
        .error (.synErr ("Invalid record element pointer \"" ++ fullPtr ++
          "\": invalid array index."))
    -- map element (lines 139-143)
    else if ¬cur.collEl ∧ cur.desc.coll = .map then
      .ok (pushNode p tok cur.desc cur.path true (some (.key tok)) cur.children)
    -- object property: nested-object check (lines 148-152)
    else if cur.desc.svt ≠ "object" then
      .error (.synErr ("Invalid record element pointer \"" ++ fullPtr ++
        "\": " ++ cur.desc.name ++ " does not have nested elements."))
    else
      match cur.children with
      | none => .error .typeErr
      | some c => objectPropStep p tok fullPtr c

/-- The token-folding loop of `parse` (lines 86-91), over raw (still escaped)
tokens. -/
def parseTokens (p : Ptr) (raws : List (List Char)) (fullPtr : String)
    (noDash : Bool) : Except Err Ptr :=
  match raws with
  | [] => .ok p
  | r :: rs =>
    match createChild p ⟨unescapeChars r⟩ fullPtr noDash with
    | .error e => .error e
    | .ok q => parseTokens q rs fullPtr noDash

/-- `parse(recordTypeDesc, propPointer, noDash)` (lines 73-95). -/
def parse (rootC : Container) (s : String) (noDash : Bool) : Except Err Ptr :=
  match s.data with
  | [] => parseTokens ⟨rootC, []⟩ (splitSlash s.data).tail s noDash
  | c :: _ =>
    if c = '/' then parseTokens ⟨rootC, []⟩ (splitSlash s.data).tail s noDash
    else
      .error (.synErr ("Invalid record element pointer \"" ++ s ++
        "\" type or syntax."))

/-- `createChildPointer(pointerToken)` (lines 215-219). -/
def createChildPointer (p : Ptr) (tok : String) : Except Err Ptr :=
  createChild p tok (ptrString p ++ "/" ++ tok) false

/-! ## Navigator / mutator

`_getImmediateValue(obj, i, forSet)` mutates nothing except the `forSet`
write-back of a freshly created container; deeper JS code then mutates the
returned value in place, which is visible through `obj` exactly when the
value is aliased to a slot of `obj`. The embedding makes this explicit:
`immVal` returns the value, the (possibly updated) parent object, and the
aliasing slot (`none` for the transient containers that are *not* written
back), and the traversal re-installs the updated value into that slot. -/

/-- A slot of a parent value through which the current value is aliased. -/
inductive Slot : Type where
  | aidx (i : Nat) : Slot
  | fld (k : String) : Slot

def linkBack (s : Option Slot) (o v' : Value) : Value :=
  match s with
  | none => o
  | some (.aidx i) => arrSet o i v'
  | some (.fld k) => objSet o k v'

/-- The `X2DataError` of the `noValue` closure (lines 430-431). -/
def noValueErr (n : PNode) : Err :=
  .dataErr ("No property value at " ++ n.ptrStr ++ ".")

/-- The map key of a collection element node (its `_collectionElementIndex`
when that is a string). -/
def keyOf (n : PNode) : String :=
  match n.idx with
  | some (.key k) => k
  | _ => ""

/-- The missing-field normalization `if (val === undefined) val = null`
(lines 451-452). -/
def normNull (v : Value) : Value :=
  if isUndefined v then .null else v

/-- `_getImmediateValue(obj, i, forSet)` (lines 428-472) for a non-root node:
`i` is the node's distance from the leaf (0 at the leaf). -/
def immVal (n : PNode) (obj : Value) (i : Nat) (forSet : Bool) :
    Except Err (Value × Value × Option Slot) :=
  if n.desc.coll = .array ∧ n.collEl then
    match n.idx with
    | some (.num k) =>
      if isNoVal (arrGet obj k) ∧ 0 < i then .error (noValueErr n)
      else .ok (arrGet obj k, obj, some (.aidx k))
    | _ =>
      -- dash index: the `val` variable is left `undefined` (line 440 guard)
      .ok (.undefined, obj, none)
  else if n.desc.coll = .map ∧ n.collEl then
    if isNoVal (objGet obj (keyOf n)) ∧ 0 < i then .error (noValueErr n)
    else .ok (objGet obj (keyOf n), obj, some (.fld (keyOf n)))
  else
    if isNull (normNull (objGet obj n.desc.name)) ∧ 0 < i then
      if 1 < i then .error (noValueErr n)
      else if n.desc.coll = .array then
        if forSet then
          .ok (.arr [], objSet obj n.desc.name (.arr []), some (.fld n.desc.name))
        else .ok (.arr [], obj, none)
      else if n.desc.coll = .map then
        if forSet then
          .ok (.obj [], objSet obj n.desc.name (.obj []), some (.fld n.desc.name))
        else .ok (.obj [], obj, none)
      else .error (noValueErr n)
    else .ok (normNull (objGet obj n.desc.name), obj, some (.fld n.desc.name))

/-- The three traversal modes: `getValue` (read), `_setValue` with its
`insert` flag, and `removeValue`. -/
inductive Mut : Type where
  | read : Mut
  | set (insert : Bool) (v : Value) : Mut
  | remove : Mut

/-- The `forSet` argument each mode passes to `_getImmediateValue`:
`true` only in `_setValue` (line 341); `getValue` and `removeValue` pass
`false` (lines 258, 390). -/
def Mut.forSet : Mut → Bool
  | .set _ _ => true
  | _ => false

/-- The `i === 0` leaf handling of `_setValue` (lines 342-363) and
`removeValue` (lines 391-408): mutate the leaf's parent object `obj`,
returning the previously computed immediate value `val`. -/
def applyLeaf (mo : Mut) (n : PNode) (val obj : Value) :
    Except Err (Value × Value) :=
  match mo with
  | .read => .ok (val, obj)
  | .set ins v =>
    if n.desc.coll = .array ∧ n.collEl then
      match n.idx with
      | some .dash =>
        if ins then .ok (val, arrPush obj v)
        else .error (.usageErr "May not replace dash index.")
      | some (.num k) =>
        if arrIdxLt k obj then
          .ok (val, if ins then arrInsert obj k v else arrSet obj k v)
        else .error (.dataErr "Array index is out of bounds.")
      | _ => .error (.dataErr "Array index is out of bounds.")
    else if n.desc.coll = .map ∧ n.collEl then
      .ok (val, objSet obj (keyOf n) v)
    else .ok (val, objSet obj n.desc.name v)
  | .remove =>
    if n.desc.coll = .array ∧ n.collEl then
      match n.idx with
      | some .dash => .error (.usageErr "May not delete dash index.")
      | some (.num k) =>
        if truthy obj ∧ arrIdxLt k obj then .ok (val, arrRemove obj k)
        else .error (.dataErr "Array index is out of bounds.")
      | _ => .error (.dataErr "Array index is out of bounds.")
    else
      if truthy obj then
        if n.desc.coll = .map ∧ n.collEl then .ok (val, objDel obj (keyOf n))
        else .ok (val, objDel obj n.desc.name)
      else .ok (val, obj)

/-- The shared `reduceRight` traversal of `getValue` (lines 248-259),
`_setValue` (lines 340-365) and `removeValue` (lines 389-410): walk the
chain from root to leaf, refine the current object at each node, apply the
leaf action, and propagate the in-place updates back up through the aliasing
slots. Returns (operation result, updated record). -/
def navigate (mo : Mut) : List PNode → Value → Except Err (Value × Value)
  | [], obj => .ok (obj, obj)
  | [n], obj =>
    match immVal n obj 0 mo.forSet with
    | .error e => .error e
    | .ok r => applyLeaf mo n r.1 obj
  | n :: m :: rest, obj =>
    match immVal n obj (m :: rest).length mo.forSet with
    | .error e => .error e
    | .ok r =>
      match navigate mo (m :: rest) r.1 with
      | .error e => .error e
      | .ok s => .ok (s.1, linkBack r.2.2 r.2.1 s.2)

/-- `getValue(record)` without a trace callback (lines 257-258); the second
component is the record after the call. -/
def getValue (p : Ptr) (record : Value) : Except Err (Value × Value) :=
  navigate .read p.nodes record

/-- The traced traversal of `getValue(record, traceFunc)` (lines 250-255) on
the non-root nodes: the trace callback is rendered as the returned list of
(value, prefix depth) pairs, in invocation order. -/
def readTraceAux : List PNode → Value → Except Err (Value × List (Value × Nat))
  | [], v => .ok (v, [])
  | n :: rest, obj =>
    match immVal n obj rest.length false with
    | .error e => .error e
    | .ok r =>
      match readTraceAux rest r.1 with
      | .error e => .error e
      | .ok s => .ok (s.1, (r.1, rest.length) :: s.2)

/-- `getValue(record, traceFunc)` with a trace callback: the root node is
traced first with the record itself (line 434-435). -/
def getValueTraced (p : Ptr) (record : Value) :
    Except Err (Value × List (Value × Nat)) :=
  match readTraceAux p.nodes record with
  | .error e => .error e
  | .ok s => .ok (s.1, (record, p.nodes.length) :: s.2)

/-- `_setValue(record, value, insert)` (lines 328-366) including its
root / undefined-value / null-object-element guards. -/
def setValueOp (p : Ptr) (record v : Value) (ins : Bool) :
    Except Err (Value × Value) :=
  if isRootPtr p then .error (.usageErr "May not replace the whole record.")
  else if isUndefined v then .error (.usageErr "May not use undefined as a value.")
  else
    match p.nodes.getLast? with
    | some leaf =>
      if isNull v ∧ leaf.collEl ∧ leaf.desc.svt = "object" then
        .error (.usageErr "May not use null as a value.")
      else navigate (.set ins v) p.nodes record
    | none => navigate (.set ins v) p.nodes record

/-- `addValue(record, value)` (lines 283-286). -/
def addValue (p : Ptr) (record v : Value) : Except Err (Value × Value) :=
  setValueOp p record v true

/-- `replaceValue(record, value)` (lines 308-311). -/
def replaceValue (p : Ptr) (record v : Value) : Except Err (Value × Value) :=
  setValueOp p record v false

/-- `removeValue(record)` (lines 384-411). -/
def removeValue (p : Ptr) (record : Value) : Except Err (Value × Value) :=
  if isRootPtr p then .error (.usageErr "May not delete the whole record.")
  else navigate .remove p.nodes record

/-- Traversal of a chain fragment located `extra` nodes above the leaf, with
`forSet` as in `_getImmediateValue`: returns the value the fragment reaches
and the rebuilding function that reflects deeper in-place mutations into the
starting object (the explicit-state rendering of JS aliasing). -/
def descend (fs : Bool) : List PNode → Nat → Value →
    Except Err (Value × (Value → Value))
  | [], _, obj => .ok (obj, fun v => v)
  | n :: rest, extra, obj =>
    match immVal n obj (rest.length + extra) fs with
    | .error e => .error e
    | .ok r =>
      match descend fs rest extra r.1 with
      | .error e => .error e
      | .ok s => .ok (s.1, fun v' => linkBack r.2.2 r.2.1 (s.2 v'))

/-! ## Sample schema and records for concrete instances

A record type with an array of nested objects (`items`, element property
`quantity`), a map of strings (`m`), and a scalar string property
(`name`). -/

def sampleItems : Container :=
  .mk "items." none [("quantity", .plain, "number", none)]

def sampleSch : Container :=
  .mk "" none
    [("items", .array, "object", some sampleItems),
     ("m", .map, "string", none),
     ("name", .plain, "string", none)]

/-- Parse a pointer against the sample schema (total wrapper; all uses are
on strings that parse successfully, which the accompanying theorems check). -/
def ptrOf (s : String) : Ptr :=
  match parse sampleSch s false with
  | .ok p => p
  | .error _ => ⟨sampleSch, []⟩

def sampleRec : Value := .obj [("items", .arr [.obj [("quantity", .num 2)]])]

/-- The property descriptor of `items` in the sample schema. -/
def itemsDesc : PropDesc := ⟨"items", .array, "object", some sampleItems⟩

/-- The chain node for the `items` token, as `parse` builds it. -/
def itemsNode : PNode :=
  ⟨"items", itemsDesc, "items", false, none, some sampleItems, "/items"⟩

def nameDesc : PropDesc := ⟨"name", .plain, "string", none⟩

def nameNode : PNode := ⟨"name", nameDesc, "name", false, none, none, "/name"⟩

def mDesc : PropDesc := ⟨"m", .map, "string", none⟩

def mNode : PNode := ⟨"m", mDesc, "m", false, none, none, "/m"⟩

def mElemNode : PNode := ⟨"k", mDesc, "m", true, some (.key "k"), none, "/m/k"⟩

def idx0Node : PNode :=
  ⟨"0", itemsDesc, "items", true, some (.num 0), some sampleItems, "/items/0"⟩

/-- A well-escaped character sequence: every `~` is immediately followed by
`0` or `1` (the RFC 6901 escape grammar). -/
def wellEsc : List Char → Bool
  | [] => true
  | [c] => !(c = '~')
  | c :: d :: rest =>
    if c = '~' then ((d = '0') || (d = '1')) && wellEsc rest
    else wellEsc (d :: rest)

/-- A pointer string all of whose raw tokens are well-escaped: the RFC 6901
validity condition on escapes. -/
def wellFormedPtr (s : String) : Bool :=
  (splitSlash s.data).all (fun t => wellEsc t)

/-- Two parser outcomes agree as the spec's `createChildPointer`/`parse`
comparison requires: equal pointers on success, errors of the same class on
failure. -/
def sameOutcome (a b : Except Err Ptr) : Prop :=
  (∃ q, a = .ok q ∧ b = .ok q) ∨
  (∃ e1 e2, a = .error e1 ∧ b = .error e2 ∧ e1.kind = e2.kind)

/-! ## Value identity lemmas

Writing a value back into the slot it was read from leaves the object
unchanged; these justify the no-op write-backs of the aliasing rendering. -/

theorem lookupFld_ne_undef_setFld (fs : List (String × Value)) (k : String)
    (h : isUndefined (lookupFld fs k) = false) :
    setFld fs k (lookupFld fs k) = fs := by
  induction fs with
  | nil => simp [lookupFld, isUndefined] at h
  | cons f rest ih =>
    obtain ⟨k', v⟩ := f
    by_cases hk : k' = k
    · subst hk
      simp [lookupFld, setFld] at h ⊢
    · simp [lookupFld, setFld, hk] at h ⊢
      exact ih h

theorem objSet_objGet_self (o : Value) (k : String)
    (h : isUndefined (objGet o k) = false) : objSet o k (objGet o k) = o := by
  cases o <;> simp [objGet, isUndefined] at h ⊢
  exact congrArg Value.obj (lookupFld_ne_undef_setFld _ _ (by simpa [isUndefined] using h))

theorem list_set_nth_self (es : List Value) (i : Nat)
    (h : isUndefined (nthVal es i) = false) :
    es.set i (nthVal es i) = es := by
  induction es generalizing i with
  | nil => simp [nthVal, isUndefined] at h
  | cons e rest ih =>
    cases i with
    | zero => simp [nthVal]
    | succ j =>
      simp [nthVal] at h ⊢
      exact ih j h

theorem arrSet_arrGet_self (o : Value) (i : Nat)
    (h : isUndefined (arrGet o i) = false) : arrSet o i (arrGet o i) = o := by
  cases o <;> simp [arrGet, isUndefined] at h ⊢
  exact congrArg Value.arr (list_set_nth_self _ _ (by simpa [isUndefined] using h))

theorem setFld_setFld (fs : List (String × Value)) (k : String) (x y : Value) :
    setFld (setFld fs k x) k y = setFld fs k y := by
  induction fs with
  | nil => simp [setFld]
  | cons f rest ih =>
    obtain ⟨k', v⟩ := f
    by_cases hk : k' = k
    · subst hk; simp [setFld]
    · simp [setFld, hk, ih]

theorem objSet_objSet (o : Value) (k : String) (x y : Value) :
    objSet (objSet o k x) k y = objSet o k y := by
  cases o <;> simp [objSet, setFld_setFld]

/-! ## `_getImmediateValue` lemmas -/

/-- With `forSet = false`, `_getImmediateValue` never changes the parent
object. -/
theorem immVal_false_obj (n : PNode) (obj : Value) (i : Nat)
    (r : Value × Value × Option Slot)
    (h : immVal n obj i false = .ok r) : r.2.1 = obj := by
  unfold immVal at h
  repeat' split at h
  all_goals try (cases h)
  all_goals simp_all

/-- At the leaf (`i = 0`) the `forSet` flag is irrelevant: the container
creation branch requires `i > 0`. -/
theorem immVal_zero_forSet (n : PNode) (obj : Value) (b : Bool) :
    immVal n obj 0 b = immVal n obj 0 false := by
  unfold immVal
  repeat' split
  all_goals simp_all

/-- A successful `forSet = true` step yields the same value as the
`forSet = false` step on the same inputs (the write-back changes only the
parent object and the aliasing slot). -/
theorem immVal_true_ok_false (n : PNode) (obj : Value) (i : Nat)
    (r : Value × Value × Option Slot) (h : immVal n obj i true = .ok r) :
    ∃ s2, immVal n obj i false = .ok (r.1, obj, s2) := by
  unfold immVal at h ⊢
  repeat' split at h
  all_goals try (cases h)
  all_goals repeat' split
  all_goals (first | contradiction | simp_all)

/-- A failing `forSet = true` step fails identically with
`forSet = false`. -/
theorem immVal_true_err_false (n : PNode) (obj : Value) (i : Nat)
    (e : Err) (h : immVal n obj i true = .error e) :
    immVal n obj i false = .error e := by
  unfold immVal at h ⊢
  repeat' split at h
  all_goals try (cases h)
  all_goals repeat' split
  all_goals simp_all

/-! ## Navigation lemmas -/


theorem isNoVal_false_undefined (v : Value) (h : isNoVal v = false) : isUndefined v = false := by
  simp [isNoVal] at h
  exact h.1

theorem normNull_not_null (v : Value) (h : isNull (normNull v) = false) :
    isUndefined v = false ∧ normNull v = v := by
  unfold normNull at h ⊢
  split at h
  · simp [isNull] at h
  · simp_all

/-- After a successful `forSet = false` step below the leaf, writing the
obtained value back through the aliasing slot is a no-op. -/
theorem immVal_false_link (n : PNode) (obj : Value) (i : Nat)
    (r : Value × Value × Option Slot)
    (h : immVal n obj i false = .ok r) (hi : 0 < i) :
    linkBack r.2.2 obj r.1 = obj := by
  unfold immVal at h
  repeat' split at h
  all_goals try (cases h)
  all_goals simp_all [linkBack]
  · exact arrSet_arrGet_self _ _ (isNoVal_false_undefined _ (by assumption))
  · exact objSet_objGet_self _ _ (isNoVal_false_undefined _ (by assumption))
  · obtain ⟨hu, he⟩ := normNull_not_null _ (by assumption)
    rw [he]
    exact objSet_objGet_self _ _ hu

theorem applyLeaf_fst (mo : Mut) (n : PNode) (val obj : Value)
    (r : Value × Value) (h : applyLeaf mo n val obj = .ok r) : r.1 = val := by
  unfold applyLeaf at h
  repeat' split at h
  all_goals try (cases h)
  all_goals simp_all

theorem navigate_read_obj (nodes : List PNode) (obj v o' : Value)
    (h : navigate .read nodes obj = .ok (v, o')) : o' = obj := by
  induction nodes generalizing obj v o' with
  | nil => simp [navigate] at h; exact h.2.symm
  | cons n rest ih =>
    cases rest with
    | nil =>
      unfold navigate at h
      cases himm : immVal n obj 0 Mut.read.forSet with
      | error e => rw [himm] at h; simp at h
      | ok r =>
        rw [himm] at h
        simp [applyLeaf] at h
        exact h.2.symm
    | cons m rest2 =>
      unfold navigate at h
      cases himm : immVal n obj (m :: rest2).length Mut.read.forSet with
      | error e => rw [himm] at h; simp at h
      | ok r =>
        rw [himm] at h
        dsimp only [] at h
        cases hnav : navigate .read (m :: rest2) r.1 with
        | error e => rw [hnav] at h; simp at h
        | ok s =>
          rw [hnav] at h
          simp at h
          have hobj : r.2.1 = obj := immVal_false_obj n obj _ r himm
          have hs : s.2 = r.1 := ih r.1 s.1 s.2 (by rw [← hnav])
          rw [← h.2, hobj, hs]
          exact immVal_false_link n obj _ r himm (by simp)



theorem navigate_set_read (nodes : List PNode) (obj : Value) (ins : Bool)
    (v pv o' : Value) (h : navigate (.set ins v) nodes obj = .ok (pv, o')) :
    navigate .read nodes obj = .ok (pv, obj) := by
  induction nodes generalizing obj pv o' with
  | nil =>
    simp [navigate] at h ⊢
    exact h.1
  | cons n rest ih =>
    cases rest with
    | nil =>
      unfold navigate at h ⊢
      simp only [Mut.forSet] at h ⊢
      cases himm : immVal n obj 0 true with
      | error e => rw [himm] at h; simp at h
      | ok r =>
        rw [himm] at h
        dsimp only [] at h
        have hfst : pv = r.1 := applyLeaf_fst _ _ _ _ _ h
        have himmf : immVal n obj 0 false = .ok r := by
          rw [← immVal_zero_forSet n obj true]; exact himm
        rw [himmf]
        dsimp only []
        simp [applyLeaf, hfst]
    | cons m rest2 =>
      unfold navigate at h ⊢
      simp only [Mut.forSet] at h ⊢
      cases himm : immVal n obj (m :: rest2).length true with
      | error e => rw [himm] at h; simp at h
      | ok r =>
        rw [himm] at h
        dsimp only [] at h
        cases hnav : navigate (.set ins v) (m :: rest2) r.1 with
        | error e => rw [hnav] at h; simp at h
        | ok s =>
          rw [hnav] at h
          simp at h
          obtain ⟨s2, himmf⟩ := immVal_true_ok_false n obj _ r himm
          have hread : navigate .read (m :: rest2) r.1 = .ok (s.1, r.1) :=
            ih r.1 s.1 s.2 (by rw [hnav])
          have hlink : linkBack s2 obj r.1 = obj :=
            immVal_false_link n obj _ (r.1, obj, s2) himmf (by simp)
          rw [himmf]
          dsimp only []
          rw [hread]
          dsimp only []
          rw [h.1, hlink]

theorem navigate_remove_read (nodes : List PNode) (obj : Value)
    (pv o' : Value) (h : navigate .remove nodes obj = .ok (pv, o')) :
    navigate .read nodes obj = .ok (pv, obj) := by
  induction nodes generalizing obj pv o' with
  | nil =>
    simp [navigate] at h ⊢
    exact h.1
  | cons n rest ih =>
    cases rest with
    | nil =>
      unfold navigate at h ⊢
      simp only [Mut.forSet] at h ⊢
      cases himm : immVal n obj 0 false with
      | error e => rw [himm] at h; simp at h
      | ok r =>
        rw [himm] at h
        dsimp only [] at h
        have hfst : pv = r.1 := applyLeaf_fst _ _ _ _ _ h
        dsimp only []
        simp [applyLeaf, hfst]
    | cons m rest2 =>
      unfold navigate at h ⊢
      simp only [Mut.forSet] at h ⊢
      cases himm : immVal n obj (m :: rest2).length false with
      | error e => rw [himm] at h; simp at h
      | ok r =>
        rw [himm] at h
        dsimp only [] at h
        cases hnav : navigate .remove (m :: rest2) r.1 with
        | error e => rw [hnav] at h; simp at h
        | ok s =>
          rw [hnav] at h
          simp at h
          have hread : navigate .read (m :: rest2) r.1 = .ok (s.1, r.1) :=
            ih r.1 s.1 s.2 (by rw [hnav])
          have hobj : r.2.1 = obj := immVal_false_obj n obj _ r himm
          have hlink : linkBack r.2.2 r.2.1 r.1 = obj := by
            rw [hobj]
            exact immVal_false_link n obj _ r himm (by simp)
          dsimp only []
          rw [hread]
          dsimp only []
          rw [h.1, hlink]



theorem readTraceAux_read (nodes : List PNode) (obj v : Value)
    (tr : List (Value × Nat)) (h : readTraceAux nodes obj = .ok (v, tr)) :
    navigate .read nodes obj = .ok (v, obj) := by
  induction nodes generalizing obj v tr with
  | nil =>
    simp [readTraceAux] at h
    simp [navigate, h.1]
  | cons n rest ih =>
    unfold readTraceAux at h
    cases himm : immVal n obj rest.length false with
    | error e => rw [himm] at h; simp at h
    | ok r =>
      rw [himm] at h
      dsimp only [] at h
      cases htr : readTraceAux rest r.1 with
      | error e => rw [htr] at h; simp at h
      | ok s =>
        rw [htr] at h
        simp at h
        cases rest with
        | nil =>
          simp [readTraceAux] at htr
          simp only [List.length_nil] at himm
          unfold navigate
          simp only [Mut.forSet]
          rw [himm]
          dsimp only []
          simp [applyLeaf, ← h.1, ← htr]
        | cons m rest2 =>
          have hread : navigate .read (m :: rest2) r.1 = .ok (s.1, r.1) :=
            ih r.1 s.1 s.2 (by rw [htr])
          have hobj : r.2.1 = obj := immVal_false_obj n obj _ r himm
          have hlink : linkBack r.2.2 r.2.1 r.1 = obj := by
            rw [hobj]
            exact immVal_false_link n obj _ r himm (by simp)
          unfold navigate
          simp only [Mut.forSet]
          rw [himm]
          dsimp only []
          rw [hread]
          dsimp only []
          rw [h.1, hlink]

theorem navigate_descend (mo : Mut) (front suffix : List PNode) (obj v : Value)
    (g : Value → Value) (hs : suffix ≠ [])
    (hd : descend mo.forSet front suffix.length obj = .ok (v, g)) :
    navigate mo (front ++ suffix) obj =
      match navigate mo suffix v with
      | .error e => .error e
      | .ok s => .ok (s.1, g s.2) := by
  induction front generalizing obj v g with
  | nil =>
    simp [descend] at hd
    cases hnav : navigate mo suffix obj with
    | error e => simp [hd.1] at hnav ⊢; rw [hnav]
    | ok s => simp [hd.1] at hnav ⊢; rw [hnav]; simp [← hd.2]
  | cons n front' ih =>
    unfold descend at hd
    cases himm : immVal n obj (front'.length + suffix.length) mo.forSet with
    | error e => rw [himm] at hd; simp at hd
    | ok r =>
      rw [himm] at hd
      dsimp only [] at hd
      cases hd2 : descend mo.forSet front' suffix.length r.1 with
      | error e => rw [hd2] at hd; simp at hd
      | ok s =>
        rw [hd2] at hd
        simp at hd
        obtain ⟨hv, hg⟩ := hd
        subst hv
        subst hg
        cases hfs : front' ++ suffix with
        | nil => exact absurd (List.append_eq_nil.mp hfs).2 hs
        | cons m rest =>
          have hlen : (m :: rest).length = front'.length + suffix.length := by
            rw [← hfs, List.length_append]
          have ihres := ih r.1 s.1 s.2 hd2
          rw [hfs] at ihres
          show navigate mo (n :: (front' ++ suffix)) obj = _
          rw [hfs]
          conv_lhs => rw [navigate]
          rw [hlen, himm]
          dsimp only []
          rw [ihres]
          cases hnavs : navigate mo suffix s.1 with
          | error e => rfl
          | ok t => rfl

theorem descend_false_id (front : List PNode) (extra : Nat) (obj v : Value)
    (g : Value → Value) (he : 0 < extra)
    (hd : descend false front extra obj = .ok (v, g)) : g v = obj := by
  induction front generalizing obj v g with
  | nil =>
    simp [descend] at hd
    rw [← hd.2, hd.1]
  | cons n front' ih =>
    unfold descend at hd
    cases himm : immVal n obj (front'.length + extra) false with
    | error e => rw [himm] at hd; simp at hd
    | ok r =>
      rw [himm] at hd
      dsimp only [] at hd
      cases hd2 : descend false front' extra r.1 with
      | error e => rw [hd2] at hd; simp at hd
      | ok s =>
        rw [hd2] at hd
        simp at hd
        have hobj : r.2.1 = obj := immVal_false_obj n obj _ r himm
        have hih : s.2 s.1 = r.1 := ih r.1 s.1 s.2 hd2
        rw [← hd.2, ← hd.1]
        show linkBack r.2.2 r.2.1 (s.2 s.1) = obj
        rw [hih, hobj]
        exact immVal_false_link n obj _ r himm (by omega)


/-! ## Claims C3 and C9 -/


theorem setValueOp_prior (p : Ptr) (record v pv r' : Value) (ins : Bool)
    (h : setValueOp p record v ins = .ok (pv, r')) :
    getValue p record = .ok (pv, record) := by
  unfold setValueOp at h
  repeat' split at h
  all_goals try (exact navigate_set_read p.nodes record ins v pv r' h)
  all_goals simp_all [isRootPtr, List.getLast?_eq_none_iff]

/-- C3: whenever `addValue`, `replaceValue` or `removeValue` completes
without error, it returns exactly the value `getValue` would have returned
for the same pointer on the record before the mutation. -/
theorem c3_write_ops_return_prior_value (p : Ptr) (record : Value) :
    (∀ v pv r', addValue p record v = .ok (pv, r') →
      getValue p record = .ok (pv, record)) ∧
    (∀ v pv r', replaceValue p record v = .ok (pv, r') →
      getValue p record = .ok (pv, record)) ∧
    (∀ pv r', removeValue p record = .ok (pv, r') →
      getValue p record = .ok (pv, record)) := by
  refine ⟨fun v pv r' h => setValueOp_prior p record v pv r' true h,
    fun v pv r' h => setValueOp_prior p record v pv r' false h,
    fun pv r' h => ?_⟩
  unfold removeValue at h
  split at h
  · simp at h
  · exact navigate_remove_read p.nodes record pv r' h

theorem c3_witness :
    getValue (ptrOf "/items/0") sampleRec =
      .ok (.obj [("quantity", .num 2)], sampleRec) :=
  (c3_write_ops_return_prior_value (ptrOf "/items/0") sampleRec).1
    (.obj [("quantity", .num 9)]) (.obj [("quantity", .num 2)])
    (.obj [("items", .arr [.obj [("quantity", .num 9)],
      .obj [("quantity", .num 2)]])]) rfl

/-- C9: `getValue`, with or without a trace callback, never modifies the
supplied record: the record coming out of a successful read traversal is the
record that went in, and the traced read computes the same value as the
plain read. -/
theorem c9_getValue_never_mutates (p : Ptr) (record : Value) :
    (∀ v r', getValue p record = .ok (v, r') → r' = record) ∧
    (∀ v tr, getValueTraced p record = .ok (v, tr) →
      getValue p record = .ok (v, record)) := by
  constructor
  · intro v r' h
    exact navigate_read_obj p.nodes record v r' h
  · intro v tr h
    unfold getValueTraced at h
    cases htr : readTraceAux p.nodes record with
    | error e => rw [htr] at h; simp at h
    | ok s =>
      rw [htr] at h
      simp at h
      rw [← h.1]
      exact readTraceAux_read p.nodes record s.1 s.2 (by rw [htr])

theorem c9_witness :
    getValue (ptrOf "/items/0/quantity") sampleRec = .ok (.num 2, sampleRec) :=
  (c9_getValue_never_mutates (ptrOf "/items/0/quantity") sampleRec).2
    (.num 2)
    [(sampleRec, 3), (.arr [.obj [("quantity", .num 2)]], 2),
     (.obj [("quantity", .num 2)], 1), (.num 2, 0)] rfl


/-! ## Claims C2, C6, C8, C10, C1 -/


theorem normNull_of_noVal (v : Value) (h : isNoVal v = true) :
    normNull v = .null := by
  cases v <;> simp_all [isNoVal, isUndefined, isNull, normNull]

theorem isNull_normNull_of_noVal (v : Value) (h : isNoVal v = true) :
    isNull (normNull v) = true := by
  rw [normNull_of_noVal v h]; rfl

/-- C2 counterexample: at depth 2 above the leaf (deeper than the leaf's
immediate parent), a null/absent array-typed object property makes the read
fail with a `DataError` at that node instead of substituting an empty
container and continuing: `getValue` of `/items/0/quantity` on `{}` reports
"no property value at /items". -/
theorem c2_cex :
    immVal itemsNode (.obj []) 2 false =
      .error (.dataErr "No property value at /items.") ∧
    getValue (ptrOf "/items/0/quantity") (.obj []) =
      .error (.dataErr "No property value at /items.") :=
  ⟨rfl, rfl⟩

/-- C2 amended: for a non-leaf node addressing an object property whose value
is null or missing, the empty-container substitution happens only when the
node is the leaf's immediate parent (`i = 1`) and the property is an array or
map; at any greater depth the read fails with a `DataError` regardless of the
declared collection kind, and a scalar property fails at every non-leaf
depth. -/
theorem c2_null_intermediate (n : PNode) (obj : Value) (i : Nat) (fs : Bool)
    (hc : n.collEl = false)
    (hnv : isNoVal (objGet obj n.desc.name) = true) :
    (1 < i → immVal n obj i fs = .error (noValueErr n)) ∧
    (n.desc.coll = .array → immVal n obj 1 false = .ok (.arr [], obj, none)) ∧
    (n.desc.coll = .map → immVal n obj 1 false = .ok (.obj [], obj, none)) ∧
    (n.desc.coll = .plain → 0 < i → immVal n obj i fs = .error (noValueErr n)) := by
  have hnn := isNull_normNull_of_noVal _ hnv
  refine ⟨fun hi => ?_, fun ha => ?_, fun hm => ?_, fun hp hi => ?_⟩
  · have h0 : 0 < i := by omega
    simp [immVal, hc, hnn, h0, hi]
  · simp [immVal, hc, hnn, ha]
  · simp [immVal, hc, hnn, hm]
  · simp [immVal, hc, hnn, hi, hp]

theorem c2_witness :
    immVal itemsNode (.obj []) 2 false = .error (noValueErr itemsNode) ∧
    immVal itemsNode (.obj []) 1 false = .ok (.arr [], .obj [], none) :=
  ⟨(c2_null_intermediate itemsNode (.obj []) 2 false rfl rfl).1 (by decide),
   (c2_null_intermediate itemsNode (.obj []) 1 false rfl rfl).2.1 rfl⟩



theorem removeValue_eq_navigate (rc : Container) (nodes : List PNode)
    (record : Value) (hne : nodes ≠ []) :
    removeValue ⟨rc, nodes⟩ record = navigate .remove nodes record := by
  unfold removeValue
  simp [isRootPtr, hne]

theorem setValueOp_eq_navigate (rc : Container) (nodes : List PNode)
    (record v : Value) (ins : Bool) (leaf : PNode)
    (hl : nodes.getLast? = some leaf)
    (hv : isUndefined v = false)
    (hguard : ¬(isNull v = true ∧ leaf.collEl = true ∧ leaf.desc.svt = "object")) :
    setValueOp ⟨rc, nodes⟩ record v ins = navigate (.set ins v) nodes record := by
  have hne : nodes ≠ [] := by
    intro he
    rw [he] at hl
    simp at hl
  unfold setValueOp
  simp only [isRootPtr]
  rw [if_neg (by simp [hne]), if_neg (by simp [hv]), hl]
  simp only []
  rw [if_neg hguard]




/-- C6: at the leaf, a missing (or null) object property reads as `null`,
while a missing array or map element reads as `undefined`; `obj` is the
leaf's parent value reached by the traversal. -/
theorem c6_leaf_absent (rc : Container) (front : List PNode) (n : PNode)
    (record obj : Value) (g : Value → Value)
    (hd : descend false front 1 record = .ok (obj, g)) :
    (n.collEl = false → isNoVal (objGet obj n.desc.name) = true →
      getValue ⟨rc, front ++ [n]⟩ record = .ok (.null, record)) ∧
    (∀ k, n.desc.coll = .array → n.collEl = true → n.idx = some (.num k) →
      arrGet obj k = .undefined →
      getValue ⟨rc, front ++ [n]⟩ record = .ok (.undefined, record)) ∧
    (∀ k, n.desc.coll = .map → n.collEl = true → n.idx = some (.key k) →
      objGet obj k = .undefined →
      getValue ⟨rc, front ++ [n]⟩ record = .ok (.undefined, record)) := by
  have hgid : g obj = record := descend_false_id front 1 record obj g (by omega) hd
  have hnav := navigate_descend .read front [n] record obj g (by simp) hd
  refine ⟨fun hc hnv => ?_, fun k ha hce hidx habs => ?_,
    fun k hm hce hidx habs => ?_⟩
  · have hleaf : navigate .read [n] obj = .ok (.null, obj) := by
      unfold navigate
      simp only [Mut.forSet]
      unfold immVal
      simp [hc, normNull_of_noVal _ hnv, applyLeaf]
    show navigate .read (front ++ [n]) record = _
    rw [hnav, hleaf]
    dsimp only []
    rw [hgid]
  · have hleaf : navigate .read [n] obj = .ok (.undefined, obj) := by
      unfold navigate
      simp only [Mut.forSet]
      unfold immVal
      simp [ha, hce, hidx, habs, applyLeaf]
    show navigate .read (front ++ [n]) record = _
    rw [hnav, hleaf]
    dsimp only []
    rw [hgid]
  · have hleaf : navigate .read [n] obj = .ok (.undefined, obj) := by
      unfold navigate
      simp only [Mut.forSet]
      unfold immVal
      simp [hm, hce, keyOf, hidx, habs, applyLeaf]
    show navigate .read (front ++ [n]) record = _
    rw [hnav, hleaf]
    dsimp only []
    rw [hgid]

theorem c6_witness :
    getValue ⟨sampleSch, [] ++ [nameNode]⟩ (.obj []) = .ok (.null, .obj []) ∧
    getValue ⟨sampleSch, [] ++ [idx0Node]⟩ (.arr []) = .ok (.undefined, .arr []) ∧
    getValue ⟨sampleSch, [] ++ [mElemNode]⟩ (.obj []) = .ok (.undefined, .obj []) :=
  ⟨(c6_leaf_absent sampleSch [] nameNode (.obj []) (.obj []) (fun v => v) rfl).1
      rfl rfl,
   (c6_leaf_absent sampleSch [] idx0Node (.arr []) (.arr []) (fun v => v) rfl).2.1
      0 rfl rfl rfl rfl,
   (c6_leaf_absent sampleSch [] mElemNode (.obj []) (.obj []) (fun v => v) rfl).2.2
      "k" rfl rfl rfl rfl⟩



/-- C8: for `addValue`, `replaceValue` and `removeValue` whose leaf is a
numeric (non-dash) array index, an index greater than or equal to the
current length of the leaf's parent array fails with the out-of-bounds
`DataError`; `.arr es` is the parent array the traversal reaches. -/
theorem c8_index_out_of_bounds (rc : Container) (front : List PNode)
    (n : PNode) (record v : Value) (es : List Value) (k : Nat)
    (gS gR : Value → Value)
    (hn : n.desc.coll = .array) (hce : n.collEl = true)
    (hidx : n.idx = some (.num k)) (hlen : es.length ≤ k) :
    (descend true front 1 record = .ok (.arr es, gS) →
      isUndefined v = false →
      ¬(isNull v = true ∧ n.collEl = true ∧ n.desc.svt = "object") →
      addValue ⟨rc, front ++ [n]⟩ record v =
        .error (.dataErr "Array index is out of bounds.") ∧
      replaceValue ⟨rc, front ++ [n]⟩ record v =
        .error (.dataErr "Array index is out of bounds.")) ∧
    (descend false front 1 record = .ok (.arr es, gR) →
      removeValue ⟨rc, front ++ [n]⟩ record =
        .error (.dataErr "Array index is out of bounds.")) := by
  have hnlt : ¬ k < es.length := Nat.not_lt.mpr hlen
  have hlast : (front ++ [n]).getLast? = some n := by
    simp [List.getLast?_concat]
  constructor
  · intro hd hv hguard
    have hset : ∀ ins, navigate (.set ins v) (front ++ [n]) record =
        .error (.dataErr "Array index is out of bounds.") := by
      intro ins
      have hleaf : navigate (.set ins v) [n] (.arr es) =
          .error (.dataErr "Array index is out of bounds.") := by
        unfold navigate
        simp only [Mut.forSet]
        unfold immVal
        simp [hn, hce, hidx, applyLeaf, arrIdxLt, hnlt]
      have hnav := navigate_descend (.set ins v) front [n] record (.arr es) gS
        (by simp) hd
      rw [hnav, hleaf]
    constructor
    · rw [show addValue ⟨rc, front ++ [n]⟩ record v =
          navigate (.set true v) (front ++ [n]) record from
        setValueOp_eq_navigate rc (front ++ [n]) record v true n hlast hv hguard]
      exact hset true
    · rw [show replaceValue ⟨rc, front ++ [n]⟩ record v =
          navigate (.set false v) (front ++ [n]) record from
        setValueOp_eq_navigate rc (front ++ [n]) record v false n hlast hv hguard]
      exact hset false
  · intro hd
    have hleaf : navigate .remove [n] (.arr es) =
        .error (.dataErr "Array index is out of bounds.") := by
      unfold navigate
      simp only [Mut.forSet]
      unfold immVal
      simp [hn, hce, hidx, applyLeaf, arrIdxLt, truthy, hnlt]
    have hnav := navigate_descend .remove front [n] record (.arr es) gR
      (by simp) hd
    rw [removeValue_eq_navigate rc (front ++ [n]) record (by simp), hnav, hleaf]

theorem c8_witness :
    addValue ⟨sampleSch, [] ++ [idx0Node]⟩ (.arr []) (.num 5) =
      .error (.dataErr "Array index is out of bounds.") ∧
    replaceValue ⟨sampleSch, [] ++ [idx0Node]⟩ (.arr []) (.num 5) =
      .error (.dataErr "Array index is out of bounds.") ∧
    removeValue ⟨sampleSch, [] ++ [idx0Node]⟩ (.arr []) =
      .error (.dataErr "Array index is out of bounds.") :=
  have h := c8_index_out_of_bounds sampleSch [] idx0Node (.arr []) (.num 5)
    [] 0 (fun x => x) (fun x => x) rfl rfl rfl (by decide)
  have h1 := h.1 rfl rfl (by simp [idx0Node, itemsDesc, isNull])
  ⟨h1.1, h1.2, h.2 rfl⟩



/-- `removeValue` through a null/absent map property: the transient empty
map is deleted from and never written back, so the call succeeds with
`undefined` and the record is unchanged. -/
theorem removeAbsentMapElem_aux (rc : Container) (front : List PNode)
    (n leaf : PNode) (record obj : Value) (g : Value → Value) (k : String)
    (hd : descend false front 2 record = .ok (obj, g))
    (hn : n.collEl = false) (hmap : n.desc.coll = .map)
    (hnv : isNoVal (objGet obj n.desc.name) = true)
    (hl : leaf.desc.coll = .map) (hlc : leaf.collEl = true)
    (hidx : leaf.idx = some (.key k)) :
    removeValue ⟨rc, front ++ [n, leaf]⟩ record = .ok (.undefined, record) := by
  have hgid : g obj = record := descend_false_id front 2 record obj g (by omega) hd
  have hnn := isNull_normNull_of_noVal _ hnv
  have himm1 : immVal n obj 1 false = .ok (.obj [], obj, none) := by
    unfold immVal
    simp [hn, hnn, hmap]
  have hleaf : navigate .remove [leaf] (.obj []) = .ok (.undefined, .obj []) := by
    unfold navigate
    simp only [Mut.forSet]
    unfold immVal
    simp [hl, hlc, keyOf, hidx, applyLeaf, truthy, objDel, delFld, objGet,
      lookupFld]
  have hsuffix : navigate .remove [n, leaf] obj = .ok (.undefined, obj) := by
    conv_lhs => rw [navigate]
    simp only [Mut.forSet, List.length_cons, List.length_nil]
    rw [himm1]
    dsimp only []
    rw [hleaf]
    simp [linkBack]
  have hnav := navigate_descend .remove front [n, leaf] record obj g
    (by simp) hd
  rw [removeValue_eq_navigate rc (front ++ [n, leaf]) record (by simp),
    hnav, hsuffix]
  dsimp only []
  rw [hgid]

/-- C10: a `removeValue` whose leaf is a map element and whose parent map
property is null or absent raises no error: it returns `undefined` and
leaves the record unchanged — the deletion happens on a transient empty map
that is never written back. `obj` is the value the traversal reaches two
nodes above the leaf (the map property's parent object). -/
theorem c10_remove_absent_map_elem (rc : Container) (front : List PNode)
    (n leaf : PNode) (record obj : Value) (g : Value → Value) (k : String)
    (hd : descend false front 2 record = .ok (obj, g))
    (hn : n.collEl = false) (hmap : n.desc.coll = .map)
    (hnv : isNoVal (objGet obj n.desc.name) = true)
    (hl : leaf.desc.coll = .map) (hlc : leaf.collEl = true)
    (hidx : leaf.idx = some (.key k)) :
    removeValue ⟨rc, front ++ [n, leaf]⟩ record = .ok (.undefined, record) :=
  removeAbsentMapElem_aux rc front n leaf record obj g k hd hn hmap hnv hl
    hlc hidx

theorem c10_witness :
    removeValue ⟨sampleSch, [] ++ [mNode, mElemNode]⟩ (.obj []) =
      .ok (.undefined, .obj []) :=
  c10_remove_absent_map_elem sampleSch [] mNode mElemNode (.obj []) (.obj [])
    (fun x => x) "k" rfl rfl rfl rfl rfl rfl rfl

/-- C1 counterexample: `removeValue` does **not** create and write back the
missing container. Removing `/m/k` from the empty record succeeds and leaves
the record entirely unchanged — no empty map is materialized at `m`. -/
theorem c1_cex :
    removeValue (ptrOf "/m/k") (.obj []) = .ok (.undefined, .obj []) ∧
    objGet (.obj []) "m" = .undefined :=
  ⟨rfl, rfl⟩

/-- C1 amended: only `addValue` and `replaceValue` (which traverse with
`forSet = true`) create the empty container for a null/absent array- or
map-declared object property at the leaf's immediate parent and write it
back into the record; `removeValue` traverses with `forSet = false`, uses a
transient container, and leaves the record unchanged. `obj` is the value the
traversal reaches above that property's node, and `g` rebuilds the record
around its updated value. -/
theorem c1_write_back_containers (rc : Container) (front : List PNode)
    (n leaf : PNode) (record obj : Value) (g : Value → Value) (k : String)
    (v : Value)
    (hn : n.collEl = false)
    (hnv : isNoVal (objGet obj n.desc.name) = true)
    (hlc : leaf.collEl = true) :
    (descend true front 2 record = .ok (obj, g) →
      n.desc.coll = .map → leaf.desc.coll = .map → leaf.idx = some (.key k) →
      isUndefined v = false →
      ¬(isNull v = true ∧ leaf.collEl = true ∧ leaf.desc.svt = "object") →
      addValue ⟨rc, front ++ [n, leaf]⟩ record v =
        .ok (.undefined, g (objSet obj n.desc.name (objSet (.obj []) k v))) ∧
      replaceValue ⟨rc, front ++ [n, leaf]⟩ record v =
        .ok (.undefined, g (objSet obj n.desc.name (objSet (.obj []) k v)))) ∧
    (descend true front 2 record = .ok (obj, g) →
      n.desc.coll = .array → leaf.desc.coll = .array →
      leaf.idx = some .dash →
      isUndefined v = false →
      ¬(isNull v = true ∧ leaf.collEl = true ∧ leaf.desc.svt = "object") →
      addValue ⟨rc, front ++ [n, leaf]⟩ record v =
        .ok (.undefined, g (objSet obj n.desc.name (.arr [v])))) ∧
    (descend false front 2 record = .ok (obj, g) →
      n.desc.coll = .map → leaf.desc.coll = .map → leaf.idx = some (.key k) →
      removeValue ⟨rc, front ++ [n, leaf]⟩ record = .ok (.undefined, record)) := by
  have hnn := isNull_normNull_of_noVal _ hnv
  have hlast : (front ++ [n, leaf]).getLast? = some leaf := by
    rw [show front ++ [n, leaf] = (front ++ [n]) ++ [leaf] from by simp]
    simp [List.getLast?_concat]
  refine ⟨fun hd hm hlm hidx hv hguard => ?_,
    fun hd ha hla hdash hv hguard => ?_,
    fun hd hm hlm hidx => removeAbsentMapElem_aux rc front n leaf record obj
      g k hd hn hm hnv hlm hlc hidx⟩
  · have himm1 : immVal n obj 1 true =
        .ok (.obj [], objSet obj n.desc.name (.obj []),
          some (.fld n.desc.name)) := by
      unfold immVal
      simp [hn, hnn, hm]
    have hleafS : ∀ ins, navigate (.set ins v) [leaf] (.obj []) =
        .ok (.undefined, objSet (.obj []) k v) := by
      intro ins
      unfold navigate
      simp only [Mut.forSet]
      unfold immVal
      simp [hlm, hlc, keyOf, hidx, applyLeaf, objGet, lookupFld]
    have hsfx : ∀ ins, navigate (.set ins v) [n, leaf] obj =
        .ok (.undefined, objSet obj n.desc.name (objSet (.obj []) k v)) := by
      intro ins
      conv_lhs => rw [navigate]
      simp only [Mut.forSet, List.length_cons, List.length_nil]
      rw [himm1]
      dsimp only []
      rw [hleafS ins]
      simp [linkBack, objSet_objSet]
    have hnav := fun ins => navigate_descend (.set ins v) front [n, leaf]
      record obj g (by simp) hd
    constructor
    · rw [show addValue ⟨rc, front ++ [n, leaf]⟩ record v =
          navigate (.set true v) (front ++ [n, leaf]) record from
        setValueOp_eq_navigate rc _ record v true leaf hlast hv hguard,
        hnav true, hsfx true]
    · rw [show replaceValue ⟨rc, front ++ [n, leaf]⟩ record v =
          navigate (.set false v) (front ++ [n, leaf]) record from
        setValueOp_eq_navigate rc _ record v false leaf hlast hv hguard,
        hnav false, hsfx false]
  · have himm1 : immVal n obj 1 true =
        .ok (.arr [], objSet obj n.desc.name (.arr []),
          some (.fld n.desc.name)) := by
      unfold immVal
      simp [hn, hnn, ha]
    have hleafS : navigate (.set true v) [leaf] (.arr []) =
        .ok (.undefined, .arr [v]) := by
      unfold navigate
      simp only [Mut.forSet]
      unfold immVal
      simp [hla, hlc, hdash, applyLeaf, arrPush]
    have hsfx : navigate (.set true v) [n, leaf] obj =
        .ok (.undefined, objSet obj n.desc.name (.arr [v])) := by
      conv_lhs => rw [navigate]
      simp only [Mut.forSet, List.length_cons, List.length_nil]
      rw [himm1]
      dsimp only []
      rw [hleafS]
      simp [linkBack, objSet_objSet]
    have hnav := navigate_descend (.set true v) front [n, leaf]
      record obj g (by simp) hd
    rw [show addValue ⟨rc, front ++ [n, leaf]⟩ record v =
          navigate (.set true v) (front ++ [n, leaf]) record from
      setValueOp_eq_navigate rc _ record v true leaf hlast hv hguard,
      hnav, hsfx]

theorem c1_witness :
    addValue ⟨sampleSch, [] ++ [mNode, mElemNode]⟩ (.obj []) (.str "x") =
      .ok (.undefined, .obj [("m", .obj [("k", .str "x")])]) ∧
    replaceValue ⟨sampleSch, [] ++ [mNode, mElemNode]⟩ (.obj []) (.str "x") =
      .ok (.undefined, .obj [("m", .obj [("k", .str "x")])]) ∧
    removeValue ⟨sampleSch, [] ++ [mNode, mElemNode]⟩ (.obj []) =
      .ok (.undefined, .obj []) :=
  have h := c1_write_back_containers sampleSch [] mNode mElemNode (.obj [])
    (.obj []) (fun x => x) "k" (.str "x") rfl rfl rfl
  have h1 := h.1 rfl rfl rfl rfl rfl (by simp [isNull])
  ⟨h1.1, h1.2, h.2.2 rfl rfl rfl rfl⟩


/-! ## Claims C7, C4, C5 (parser) -/


/-- C7: at an array property not yet resolved to an element, a child token is
accepted exactly when it is the dash (with dash allowed) or a canonical
decimal index with no leading zeros; every rejection is a `SyntaxError`, and
nothing may follow a dash node. -/
theorem c7_array_index_tokens (p : Ptr) (cur : PNode)
    (hl : p.nodes.getLast? = some cur)
    (hce : cur.collEl = false) (ha : cur.desc.coll = .array) :
    (∀ t f nd, (∃ q, createChild p t f nd = .ok q) ↔
      ((t = "-" ∧ nd = false) ∨ isArrayIdxTok t = true)) ∧
    (∀ t f nd e, createChild p t f nd = .error e → e.kind = .syn) ∧
    (∀ f q, createChild p "-" f false = .ok q →
      ∀ t' f' nd', ∃ e, createChild q t' f' nd' = .error e ∧ e.kind = .syn) := by
  refine ⟨fun t f nd => ?_, fun t f nd e he => ?_, fun f q hq t' f' nd' => ?_⟩
  · unfold createChild
    rw [hl]
    simp only [hce, ha]
    by_cases ht : t = "-"
    · by_cases hnd : nd = true
      · simp [ht, hnd, isArrayIdxTok]
      · simp at hnd
        simp [ht, hnd]
    · by_cases hidx : isArrayIdxTok t = true
      · simp [ht, hidx]
      · simp at hidx
        simp [ht, hidx]
  · unfold createChild at he
    rw [hl] at he
    simp [hce, ha] at he
    repeat' split at he
    all_goals cases he
    all_goals rfl
  · unfold createChild at hq
    rw [hl] at hq
    simp [hce, ha] at hq
    all_goals try (cases hq)
    · unfold createChild
      simp only [pushNode, List.getLast?_concat]
      rw [if_pos]
      · exact ⟨_, rfl, rfl⟩
      · simp [ha]



theorem c7_witness :
    (∃ q, createChild (ptrOf "/items") "0" "/f" false = .ok q) ∧
    (∃ e, createChild (ptrOf "/items") "01" "/f" false = .error e ∧
      e.kind = .syn) :=
  have h := c7_array_index_tokens (ptrOf "/items") itemsNode rfl rfl rfl
  ⟨(h.1 "0" "/f" false).mpr (Or.inr rfl),
   ⟨_, rfl, h.2.1 "01" "/f" false _ rfl⟩⟩

theorem escapeChars_nil_iff (l : List Char) : escapeChars l = [] ↔ l = [] := by
  cases l with
  | nil => simp [escapeChars]
  | cons c rest =>
    simp only [escapeChars]
    split_ifs <;> simp

theorem unescape_escape (l : List Char) :
    unescapeChars (escapeChars l) = l := by
  induction l with
  | nil => rfl
  | cons c rest ih =>
    by_cases hc : c = '~'
    · subst hc
      simp [escapeChars, unescapeChars, ih]
    · by_cases hs : c = '/'
      · subst hs
        simp [escapeChars, unescapeChars, ih]
      · rw [show escapeChars (c :: rest) = c :: escapeChars rest from by
          simp [escapeChars, hc, hs]]
        cases he : escapeChars rest with
        | nil =>
          have hr : rest = [] := (escapeChars_nil_iff rest).mp he
          subst hr
          simp [unescapeChars]
        | cons d rs =>
          rw [show unescapeChars (c :: d :: rs) = c :: unescapeChars (d :: rs) from by
            simp [unescapeChars, hc]]
          rw [← he, ih]

theorem slash_not_mem_escape (l : List Char) : '/' ∉ escapeChars l := by
  induction l with
  | nil => simp [escapeChars]
  | cons c rest ih =>
    unfold escapeChars
    split_ifs with h1 h2
    · intro hmem
      rcases List.mem_cons.mp hmem with h | hmem2
      · exact absurd h (by decide)
      · rcases List.mem_cons.mp hmem2 with h | hmem3
        · exact absurd h (by decide)
        · exact ih hmem3
    · intro hmem
      rcases List.mem_cons.mp hmem with h | hmem2
      · exact absurd h (by decide)
      · rcases List.mem_cons.mp hmem2 with h | hmem3
        · exact absurd h (by decide)
        · exact ih hmem3
    · intro hmem
      rcases List.mem_cons.mp hmem with h | hmem2
      · exact h2 h.symm
      · exact ih hmem2



theorem splitSlash_ne_nil (l : List Char) : splitSlash l ≠ [] := by
  cases l with
  | nil => simp [splitSlash]
  | cons c rest =>
    simp only [splitSlash]
    split_ifs <;> simp

theorem splitSlash_cons_slash (rest : List Char) :
    splitSlash ('/' :: rest) = [] :: splitSlash rest := by
  simp [splitSlash]

theorem splitSlash_cons_ne (c : Char) (rest : List Char) (hc : c ≠ '/') :
    splitSlash (c :: rest) =
      (c :: (splitSlash rest).headD []) :: (splitSlash rest).tail := by
  simp [splitSlash, hc]

theorem splitSlash_reconstruct (l : List Char) :
    ((splitSlash l).map (fun t => '/' :: t)).flatten = '/' :: l := by
  induction l with
  | nil => rfl
  | cons c rest ih =>
    by_cases hc : c = '/'
    · subst hc
      rw [splitSlash_cons_slash]
      simp only [List.map_cons, List.flatten_cons, ih]
      rfl
    · rw [splitSlash_cons_ne c rest hc]
      cases hs : splitSlash rest with
      | nil => exact absurd hs (splitSlash_ne_nil rest)
      | cons t ts =>
        rw [hs] at ih
        simp only [List.map_cons, List.flatten_cons] at ih ⊢
        simp only [List.headD_cons, List.tail_cons]
        have ih2 : t ++ (ts.map (fun t => '/' :: t)).flatten = rest := by
          rw [List.cons_append, List.cons.injEq] at ih
          exact ih.2
        rw [List.cons_append, List.cons_append, ih2]

theorem splitSlash_no_slash (l : List Char) :
    ∀ t ∈ splitSlash l, '/' ∉ t := by
  induction l with
  | nil =>
    intro t ht
    simp [splitSlash] at ht
    simp [ht]
  | cons c rest ih =>
    intro t ht
    by_cases hc : c = '/'
    · subst hc
      simp only [splitSlash, if_pos rfl] at ht
      rcases List.mem_cons.mp ht with h | h
      · simp [h]
      · exact ih t h
    · simp only [splitSlash, if_neg hc] at ht
      cases hs : splitSlash rest with
      | nil => exact absurd hs (splitSlash_ne_nil rest)
      | cons t0 ts =>
        rw [hs] at ht
        simp only [List.headD_cons, List.tail_cons] at ht
        rcases List.mem_cons.mp ht with h | h
        · subst h
          intro hmem
          rcases List.mem_cons.mp hmem with h | h
          · exact hc h.symm
          · exact ih t0 (by rw [hs]; exact List.mem_cons_self t0 ts) h
        · exact ih t (by rw [hs]; exact List.mem_cons_of_mem t0 h)




theorem escape_unescape_of_wellEsc (l : List Char) (hw : wellEsc l = true)
    (hs : '/' ∉ l) : escapeChars (unescapeChars l) = l := by
  induction l using unescapeChars.induct with
  | case1 => rfl
  | case2 c =>
    simp [wellEsc] at hw
    simp at hs
    have h2 : ¬c = '/' := fun h => hs (by simp [h])
    simp [unescapeChars, escapeChars, hw, h2]
  | case3 rest ih =>
    simp [wellEsc] at hw
    simp at hs
    show escapeChars ('~' :: unescapeChars rest) = '~' :: '0' :: rest
    simp [escapeChars]
    exact ih hw hs
  | case4 rest h ih =>
    simp [wellEsc] at hw
    simp at hs
    show escapeChars ('/' :: unescapeChars rest) = '~' :: '1' :: rest
    simp [escapeChars]
    exact ih hw hs
  | case5 d rest h1 h2 ih =>
    simp [wellEsc, h1, h2] at hw
  | case6 c d rest h ih =>
    have hw2 : wellEsc (d :: rest) = true := by
      simpa [wellEsc, h] using hw
    simp at hs
    have hs2 : '/' ∉ d :: rest := by
      simp
      exact ⟨hs.2.1, hs.2.2⟩
    have hc2 : ¬c = '/' := fun he => hs.1 (by simp [he])
    simp only [unescapeChars, if_neg h]
    simp only [escapeChars, if_neg h, if_neg hc2]
    rw [ih hw2 hs2]



theorem ptrString_pushNode (p : Ptr) (tok : String) (d : PropDesc)
    (path : String) (ce : Bool) (idx : Option ElemIdx) (ch : Option Container) :
    ptrString (pushNode p tok d path ce idx ch) =
      ptrString p ++ "/" ++ escapeStr tok := by
  simp [pushNode, ptrString, List.getLast?_concat]

/-- Every successful `_createChildPointer` step appends exactly one node,
carrying the given token and the extended pointer string. -/
theorem createChild_shape (p : Ptr) (tok f : String) (nd : Bool) (q : Ptr)
    (h : createChild p tok f nd = .ok q) :
    q.rootC = p.rootC ∧ ∃ n, q.nodes = p.nodes ++ [n] ∧ n.token = tok ∧
      n.ptrStr = ptrString p ++ "/" ++ escapeStr tok := by
  unfold createChild objectPropStep at h
  repeat' split at h
  all_goals cases h
  all_goals exact ⟨rfl, _, rfl, rfl, rfl⟩

theorem createChild_ptrString (p : Ptr) (tok f : String) (nd : Bool) (q : Ptr)
    (h : createChild p tok f nd = .ok q) :
    ptrString q = ptrString p ++ "/" ++ escapeStr tok := by
  obtain ⟨-, n, hn, -, hps⟩ := createChild_shape p tok f nd q h
  rw [ptrString, hn, List.getLast?_concat]
  exact hps

theorem parseTokens_ptrString (raws : List (List Char)) (p q : Ptr)
    (f : String) (nd : Bool) (h : parseTokens p raws f nd = .ok q) :
    (ptrString q).data = (ptrString p).data ++
      (raws.map (fun r => '/' :: escapeChars (unescapeChars r))).flatten := by
  induction raws generalizing p with
  | nil =>
    simp [parseTokens] at h
    simp [← h]
  | cons r rs ih =>
    unfold parseTokens at h
    cases hc : createChild p ⟨unescapeChars r⟩ f nd with
    | error e => rw [hc] at h; simp at h
    | ok p1 =>
      rw [hc] at h
      dsimp only [] at h
      have hps := createChild_ptrString p ⟨unescapeChars r⟩ f nd p1 hc
      have := ih p1 h
      rw [this, hps]
      rw [show (ptrString p ++ "/" ++ escapeStr ⟨unescapeChars r⟩).data =
        ((ptrString p).data ++ ['/']) ++ escapeChars (unescapeChars r) from rfl]
      simp [List.append_assoc]



/-- C4 counterexample: the pointer string `/m/~2` (map key token `~2`, not a
legal RFC 6901 escape) parses successfully against the sample schema, but
the parsed pointer prints as `/m/~02`, not `/m/~2`: unescaping and
re-escaping are not mutually inverse on every accepted token. -/
theorem c4_cex :
    (parse sampleSch "/m/~2" false).toOption.map ptrString = some "/m/~02" ∧
    "/m/~02" ≠ "/m/~2" :=
  ⟨rfl, by decide⟩

/-- C4 amended: for every pointer string whose tokens are well-escaped
(every `~` is followed by `0` or `1`), a successful parse round-trips:
`toString` of the parsed pointer is the original string. -/
theorem c4_round_trip (sch : Container) (s : String) (nd : Bool) (P : Ptr)
    (hw : wellFormedPtr s = true) (hp : parse sch s nd = .ok P) :
    ptrString P = s := by
  unfold parse at hp
  split at hp
  case h_1 heq =>
    rw [heq] at hp
    simp [splitSlash, parseTokens] at hp
    have hs : s = "" := by
      cases s with
      | mk data => simp at heq; simp [heq]
    rw [hs, ← hp]
    rfl
  case h_2 c cs heq =>
    split at hp
    case isTrue hc =>
      subst hc
      have hps := parseTokens_ptrString _ _ _ _ _ hp
      rw [heq, splitSlash_cons_slash, List.tail_cons] at hps
      have hmap : (splitSlash cs).map
          (fun r => '/' :: escapeChars (unescapeChars r)) =
          (splitSlash cs).map (fun r => '/' :: r) := by
        apply List.map_congr_left
        intro r hr
        have hwr : wellEsc r = true := by
          rw [wellFormedPtr, heq, splitSlash_cons_slash] at hw
          simp [List.all_eq_true] at hw
          exact hw.2 r hr
        have hnr : '/' ∉ r := splitSlash_no_slash cs r hr
        rw [escape_unescape_of_wellEsc r hwr hnr]
      rw [hmap, splitSlash_reconstruct, ← heq] at hps
      have : (ptrString P).data = s.data := by
        rw [hps]
        rfl
      cases s with
      | mk data =>
        cases hq : ptrString P with
        | mk data2 =>
          rw [hq] at this
          simp at this
          simp [this]
    case isFalse hc =>
      simp at hp

theorem c4_witness : ptrString (ptrOf "/items/0") = "/items/0" :=
  c4_round_trip sampleSch "/items/0" false (ptrOf "/items/0") rfl rfl



set_option maxHeartbeats 1000000 in
/-- The `fullPointer` argument (used only in error messages) does not affect
a successful `_createChildPointer` step. -/
theorem createChild_ok_fullPtr (p : Ptr) (tok f1 f2 : String) (nd : Bool)
    (q : Ptr) (h : createChild p tok f1 nd = .ok q) :
    createChild p tok f2 nd = .ok q := by
  unfold createChild objectPropStep at h ⊢
  repeat' split at h
  all_goals cases h
  all_goals repeat' split
  all_goals first | rfl | simp_all

set_option maxHeartbeats 1000000 in
/-- A failing `_createChildPointer` step fails with the same class of error
for any `fullPointer` argument. -/
theorem createChild_err_fullPtr (p : Ptr) (tok f1 f2 : String) (nd : Bool)
    (e : Err) (h : createChild p tok f1 nd = .error e) :
    ∃ e2, createChild p tok f2 nd = .error e2 ∧ e.kind = e2.kind := by
  unfold createChild objectPropStep at h ⊢
  repeat' split at h
  all_goals cases h
  all_goals repeat' split
  all_goals first | exact ⟨_, rfl, rfl⟩ | simp_all




theorem splitSlash_append (a b : List Char) :
    splitSlash (a ++ '/' :: b) = splitSlash a ++ splitSlash b := by
  induction a with
  | nil =>
    rw [List.nil_append, splitSlash_cons_slash]
    rfl
  | cons c a' ih =>
    by_cases hc : c = '/'
    · subst hc
      rw [List.cons_append, splitSlash_cons_slash, splitSlash_cons_slash, ih]
      rfl
    · rw [List.cons_append, splitSlash_cons_ne c _ hc, splitSlash_cons_ne c _ hc,
        ih]
      cases hs : splitSlash a' with
      | nil => exact absurd hs (splitSlash_ne_nil a')
      | cons t ts => simp

theorem splitSlash_of_not_mem (l : List Char) (h : '/' ∉ l) :
    splitSlash l = [l] := by
  induction l with
  | nil => rfl
  | cons c rest ih =>
    simp at h
    rw [splitSlash_cons_ne c rest (fun he => h.1 he.symm), ih h.2]
    rfl

theorem splitSlash_blocks (bs : List (List Char)) (h : ∀ b ∈ bs, '/' ∉ b) :
    splitSlash ((bs.map (fun b => '/' :: b)).flatten) = [] :: bs := by
  induction bs with
  | nil => rfl
  | cons b bs' ih =>
    rw [List.map_cons, List.flatten_cons]
    cases bs' with
    | nil =>
      simp only [List.map_nil, List.flatten_nil, List.append_nil]
      rw [show ('/' :: b : List Char) = [] ++ '/' :: b from rfl,
        splitSlash_append,
        splitSlash_of_not_mem b (h b (List.mem_cons_self b []))]
      rfl
    | cons b2 bs'' =>
      rw [List.map_cons, List.flatten_cons]
      rw [show ('/' :: b) ++ (('/' :: b2) ++ (bs''.map (fun b => '/' :: b)).flatten) =
        '/' :: (b ++ '/' :: (b2 ++ (bs''.map (fun b => '/' :: b)).flatten)) from
          by simp]
      rw [splitSlash_cons_slash, splitSlash_append,
        splitSlash_of_not_mem b (h b (List.mem_cons_self b _))]
      have ih2 := ih (fun x hx => h x (List.mem_cons_of_mem b hx))
      rw [List.map_cons, List.flatten_cons] at ih2
      rw [show (('/' :: b2) ++ (bs''.map (fun b => '/' :: b)).flatten : List Char) =
        '/' :: (b2 ++ (bs''.map (fun b => '/' :: b)).flatten) from by simp]
        at ih2
      rw [splitSlash_cons_slash] at ih2
      have ih3 : splitSlash (b2 ++ (bs''.map (fun b => '/' :: b)).flatten) =
          b2 :: bs'' := by
        have := List.cons.injEq ([] : List Char)
          (splitSlash (b2 ++ (bs''.map (fun b => '/' :: b)).flatten)) [] (b2 :: bs'')
        rw [List.cons.injEq] at ih2
        exact ih2.2
      rw [ih3]
      rfl

theorem parseTokens_append (as bs : List (List Char)) (p : Ptr) (f : String)
    (nd : Bool) :
    parseTokens p (as ++ bs) f nd =
      match parseTokens p as f nd with
      | .error e => .error e
      | .ok q => parseTokens q bs f nd := by
  induction as generalizing p with
  | nil => rfl
  | cons r rs ih =>
    rw [List.cons_append]
    conv_lhs => rw [parseTokens]
    conv_rhs => rw [parseTokens]
    cases hc : createChild p ⟨unescapeChars r⟩ f nd with
    | error e => rfl
    | ok p1 =>
      dsimp only []
      exact ih p1

/-- Re-running the parser on the re-escaped tokens of a successful parse
reproduces the same pointer, for any `fullPointer` string. -/
theorem parseTokens_replay (raws : List (List Char)) (p q : Ptr)
    (f f2 : String) (nd : Bool) (h : parseTokens p raws f nd = .ok q) :
    parseTokens p (raws.map (fun r => escapeChars (unescapeChars r))) f2 nd =
      .ok q := by
  induction raws generalizing p with
  | nil =>
    simp [parseTokens] at h
    simp [parseTokens, h]
  | cons r rs ih =>
    unfold parseTokens at h
    cases hc : createChild p ⟨unescapeChars r⟩ f nd with
    | error e => rw [hc] at h; simp at h
    | ok p1 =>
      rw [hc] at h
      dsimp only [] at h
      have hc2 : createChild p ⟨unescapeChars (escapeChars (unescapeChars r))⟩
          f2 nd = .ok p1 := by
        rw [unescape_escape]
        exact createChild_ok_fullPtr p ⟨unescapeChars r⟩ f f2 nd p1 hc
      rw [List.map_cons]
      conv_lhs => rw [parseTokens]
      rw [hc2]
      dsimp only []
      exact ih p1 h



/-- Core of C5: if `P` was produced by the token-folding loop, then extending
`P` by one token gives the same outcome (same pointer on success, same error
class on failure) as parsing `P.toString() + "/" + escape(token)` from
scratch. -/
theorem c5_main (sch : Container) (raws : List (List Char)) (fOrig t : String)
    (P : Ptr) (hpt : parseTokens ⟨sch, []⟩ raws fOrig false = .ok P) :
    sameOutcome (createChildPointer P t)
      (parse sch (ptrString P ++ "/" ++ escapeStr t) false) := by
  have hbs : ∀ b ∈ raws.map (fun r => escapeChars (unescapeChars r)),
      '/' ∉ b := by
    intro b hb
    obtain ⟨r, -, hr⟩ := List.mem_map.mp hb
    rw [← hr]
    exact slash_not_mem_escape _
  have hps : (ptrString P).data =
      (((raws.map (fun r => escapeChars (unescapeChars r))).map
        (fun b => '/' :: b)).flatten) := by
    have h0 := parseTokens_ptrString raws ⟨sch, []⟩ P fOrig false hpt
    rw [show ptrString ⟨sch, []⟩ = "" from rfl] at h0
    rw [List.map_map]
    simpa [Function.comp] using h0
  have hEdata : (ptrString P ++ "/" ++ escapeStr t).data =
      (ptrString P).data ++ '/' :: escapeChars t.data := by
    show ((ptrString P).data ++ ['/']) ++ escapeChars t.data = _
    simp
  have hsplit : splitSlash ((ptrString P ++ "/" ++ escapeStr t).data) =
      ([] :: raws.map (fun r => escapeChars (unescapeChars r))) ++
        [escapeChars t.data] := by
    rw [hEdata, hps, splitSlash_append, splitSlash_blocks _ hbs,
      splitSlash_of_not_mem (escapeChars t.data) (slash_not_mem_escape t.data)]
  have hhead : ∃ tl, (ptrString P ++ "/" ++ escapeStr t).data = '/' :: tl := by
    rw [hEdata, hps]
    cases hb : raws.map (fun r => escapeChars (unescapeChars r)) with
    | nil => exact ⟨escapeChars t.data, rfl⟩
    | cons b bs' =>
      exact ⟨b ++ ((bs'.map (fun b => '/' :: b)).flatten ++
        '/' :: escapeChars t.data), by simp⟩
  obtain ⟨tl, htl⟩ := hhead
  have hparse : parse sch (ptrString P ++ "/" ++ escapeStr t) false =
      match createChild P t (ptrString P ++ "/" ++ escapeStr t) false with
      | .error e => .error e
      | .ok q => .ok q := by
    unfold parse
    split
    case h_1 heq => rw [htl] at heq; cases heq
    case h_2 c cs heq =>
      have hc : c = '/' := by
        rw [htl] at heq
        exact (List.cons.injEq _ _ _ _ ▸ heq).1.symm
      rw [if_pos hc, hsplit, List.cons_append, List.tail_cons,
        parseTokens_append,
        parseTokens_replay raws ⟨sch, []⟩ P fOrig _ false hpt]
      dsimp only []
      conv_lhs => rw [parseTokens]
      rw [show (⟨unescapeChars (escapeChars t.data)⟩ : String) = t from by
        rw [unescape_escape]]
      cases hcc : createChild P t (ptrString P ++ "/" ++ escapeStr t) false with
      | error e => rfl
      | ok q => rfl
  rw [show createChildPointer P t =
    createChild P t (ptrString P ++ "/" ++ t) false from rfl]
  cases hl : createChild P t (ptrString P ++ "/" ++ t) false with
  | ok q =>
    left
    refine ⟨q, rfl, ?_⟩
    rw [hparse,
      createChild_ok_fullPtr P t (ptrString P ++ "/" ++ t) _ false q hl]
  | error e =>
    right
    obtain ⟨e2, he2, hk⟩ := createChild_err_fullPtr P t
      (ptrString P ++ "/" ++ t) (ptrString P ++ "/" ++ escapeStr t) false e hl
    exact ⟨e, e2, rfl, by rw [hparse, he2], hk⟩

/-- C5: `createChildPointer(token)` on a parsed pointer `P` produces the same
result as `parse(schema, P.toString() + "/" + escape(token))` — the same
pointer (hence the same pointer string, property descriptor, property path,
collection-element flag and element index) on success, and an error of the
same class on failure. -/
theorem c5_createChildPointer_eq_parse (sch : Container) (s t : String)
    (P : Ptr) (hp : parse sch s false = .ok P) :
    sameOutcome (createChildPointer P t)
      (parse sch (ptrString P ++ "/" ++ escapeStr t) false) := by
  unfold parse at hp
  split at hp
  case h_1 heq =>
    exact c5_main sch _ s t P hp
  case h_2 c cs heq =>
    split at hp
    case isTrue hc => exact c5_main sch _ s t P hp
    case isFalse hc => simp at hp

theorem c5_witness :
    sameOutcome (createChildPointer (ptrOf "/items") "0")
      (parse sampleSch (ptrString (ptrOf "/items") ++ "/" ++ escapeStr "0")
        false) :=
  c5_createChildPointer_eq_parse sampleSch "/items" "0" (ptrOf "/items") rfl


end X2P
